import Mathlib

/-!
# Verification of the Postfix policy-delegation engine (`src/lib.rs`)

A shallow embedding of the crate's two components:

* the Response Model: `PolicyResponse` and `serialize_response`
  (src/lib.rs lines 30-120);
* the Connection Engine: `handle_connection` (src/lib.rs lines 209-253),
  generic over a `PolicyRequestHandler`.

Bytes are modelled as `Nat` (10 = line feed, 61 = the equals sign,
32 = space), byte strings as `List Nat`.  Streams are pure: the input is
the full byte sequence the peer will ever send (as with the crate's
`test_helper::DummySocket`, whose reads draw from a fixed buffer and whose
writes append to a growing buffer, `flush` being a no-op).  Consequently
reads and writes cannot fail, so the `IoError` case of
`PostfixPolicyError` is never produced by the model, exactly as it is
never produced by `handle_connection` when run over a `DummySocket`.
-/

/-- Byte-string literal helper: the bytes of an ASCII string. -/
def strBytes (s : String) : List Nat :=
  s.toList.map Char.toNat

/-- src/lib.rs lines 9-18: the error enum `PostfixPolicyError<ErrorType>`.
`IoError`'s `std::io::Error` payload is irrelevant to the pure model and
elided. -/
inductive PostfixPolicyError (ε : Type) where
  | IoError : PostfixPolicyError ε
  | ProtocolError : List Nat → PostfixPolicyError ε
  | HandlerError : ε → PostfixPolicyError ε
  deriving DecidableEq

/-- src/lib.rs lines 30-43: the `PolicyResponse` enum.  Each payload is an
opaque byte sequence. -/
inductive PolicyResponse where
  | Ok : PolicyResponse
  | Reject : List Nat → PolicyResponse
  | Defer : List Nat → PolicyResponse
  | DeferIfReject : List Nat → PolicyResponse
  | DeferIfPermit : List Nat → PolicyResponse
  | Bcc : List Nat → PolicyResponse
  | Discard : List Nat → PolicyResponse
  | Dunno : PolicyResponse
  | Hold : List Nat → PolicyResponse
  | Redirect : List Nat → PolicyResponse
  | Info : List Nat → PolicyResponse
  | Warn : List Nat → PolicyResponse
  deriving DecidableEq

/-- src/lib.rs lines 68-120: `serialize_response`.  The Rust function first
selects `(message, action)` by matching on the variant (`message` stays the
empty vector for `Ok` and `Dunno`), then returns `action` alone when
`message` is empty and `action ++ " " ++ message` otherwise. -/
def serialize_response (resp : PolicyResponse) : List Nat :=
  let p : List Nat × List Nat :=
    match resp with
    | PolicyResponse.Ok => ([], strBytes "OK")
    | PolicyResponse.Reject msg => (msg, strBytes "REJECT")
    | PolicyResponse.Defer msg => (msg, strBytes "DEFER")
    | PolicyResponse.DeferIfReject msg => (msg, strBytes "DEFER_IF_REJECT")
    | PolicyResponse.DeferIfPermit msg => (msg, strBytes "DEFER_IF_PERMIT")
    | PolicyResponse.Bcc email => (email, strBytes "BCC")
    | PolicyResponse.Discard msg => (msg, strBytes "DISCARD")
    | PolicyResponse.Dunno => ([], strBytes "DUNNO")
    | PolicyResponse.Hold msg => (msg, strBytes "HOLD")
    | PolicyResponse.Redirect dst => (dst, strBytes "REDIRECT")
    | PolicyResponse.Info msg => (msg, strBytes "INFO")
    | PolicyResponse.Warn msg => (msg, strBytes "WARN")
  if p.1 = [] then p.2 else p.2 ++ 32 :: p.1

/-- src/lib.rs lines 51-66: the `PolicyRequestHandler<'l, ContextType,
ErrorType>` trait, as a dictionary over an explicit handler-state type `σ`:
`new` builds a fresh state from the shared context, `attribute` ingests one
`(name, value)` pair returning the updated state plus `Some(error)` to
abort, and `response` consumes the state to yield the decision. -/
structure PolicyRequestHandler (γ ε σ : Type) where
  new : γ → σ
  «attribute» : σ → List Nat → List Nat → σ × Option ε
  response : σ → Except ε PolicyResponse

variable {γ ε σ : Type}

/-- src/lib.rs line 239: `buf.iter().position(|&c| c == b'=')` — index of
the first equals sign, if any. -/
def findEq : List Nat → Option Nat
  | [] => none
  | c :: rest => if c = 61 then some 0 else (findEq rest).map Nat.succ

/-- `BufReader::read_until(b'\n', &mut buf)` (src/lib.rs line 222) over a
pure byte list: the first return component is the line read — every byte up
to and including the first line feed, or all remaining bytes when the
stream ends first — and the second is the unread remainder.  The line is
empty exactly when the stream is empty (`read_until` returned 0). -/
def read_until_nl : List Nat → List Nat × List Nat
  | [] => ([], [])
  | b :: rest =>
    if b = 10 then ([10], rest)
    else
      let p := read_until_nl rest
      (b :: p.1, p.2)

/-- Outcome of one iteration of the `handle_connection` loop body on a
line `buf`: a response was written (carrying the bytes written and the
fresh handler state), an attribute was ingested (carrying the updated
state), or the connection aborts with an error. -/
inductive LineResult (σ ε : Type) where
  | wrote : List Nat → σ → LineResult σ ε
  | ingested : σ → LineResult σ ε
  | aborted : PostfixPolicyError ε → LineResult σ ε

/-- src/lib.rs lines 226-251: the body of the `handle_connection` loop, on
one line `buf` as returned by `read_until`.  A lone line feed finalizes the
handler and, on success, writes `action=`, the serialized response and two
line feeds (the subsequent `flush` is a no-op on the pure byte sink) and
restarts with a fresh handler.  Any other line must contain an equals
sign; the line splits at the first one (`split_at(pos)`, so `right` starts
with the equals sign itself), the name part must be non-empty and `right`
at least two bytes long, and the value passed to the handler is `right`
stripped of its first byte (the equals sign) and its last byte. -/
def process_line (H : PolicyRequestHandler γ ε σ) (ctx : γ) (s : σ)
    (buf : List Nat) : LineResult σ ε :=
  if buf = [10] then
    match H.response s with
    | Except.error e => LineResult.aborted (PostfixPolicyError.HandlerError e)
    | Except.ok result =>
      LineResult.wrote
        (strBytes "action=" ++ serialize_response result ++ [10, 10])
        (H.new ctx)
  else
    match findEq buf with
    | none => LineResult.aborted (PostfixPolicyError.ProtocolError buf)
    | some pos =>
      let left := buf.take pos
      let right := buf.drop pos
      if left = [] ∨ right.length < 2 then
        LineResult.aborted (PostfixPolicyError.ProtocolError buf)
      else
        match H.attribute s left ((right.drop 1).dropLast) with
        | (_, some e) => LineResult.aborted (PostfixPolicyError.HandlerError e)
        | (s2, none) => LineResult.ingested s2

/-- src/lib.rs lines 220-252: the `handle_connection` loop.  `cur` is the
portion of the current line accumulated so far by `read_until` (it never
contains a line feed); `hc_run_eq` below shows each iteration processes
exactly the `read_until_nl` line.  Structure of the result: the bytes
written to the socket, paired with `none` for `Ok(())` and `some e` for
`Err(e)`.  When the stream ends with no pending line, `read_until` returns
0 and the loop returns `Ok(())`; when it ends mid-line, the pending bytes
form the final (unterminated) line. -/
def hc_run (H : PolicyRequestHandler γ ε σ) (ctx : γ) (s : σ)
    (cur : List Nat) : List Nat → List Nat × Option (PostfixPolicyError ε)
  | [] =>
    if cur = [] then ([], none)
    else
      match process_line H ctx s cur with
      | LineResult.wrote out _ => (out, none)
      | LineResult.ingested _ => ([], none)
      | LineResult.aborted e => ([], some e)
  | b :: rest =>
    if b = 10 then
      match process_line H ctx s (cur ++ [10]) with
      | LineResult.wrote out s2 =>
        let c := hc_run H ctx s2 [] rest
        (out ++ c.1, c.2)
      | LineResult.ingested s2 => hc_run H ctx s2 [] rest
      | LineResult.aborted e => ([], some e)
    else hc_run H ctx s (cur ++ [b]) rest

/-- src/lib.rs lines 209-253: `handle_connection`.  A fresh handler is
constructed from the context before the loop starts. -/
def handle_connection (H : PolicyRequestHandler γ ε σ) (ctx : γ)
    (input : List Nat) : List Nat × Option (PostfixPolicyError ε) :=
  hc_run H ctx (H.new ctx) [] input

/-- Continuation of the connection after one line was processed with
outcome `r` and unread remainder `rest`: written bytes accumulate in
front of what the rest of the loop writes. -/
def line_dispatch (H : PolicyRequestHandler γ ε σ) (ctx : γ)
    (r : LineResult σ ε) (rest : List Nat) :
    List Nat × Option (PostfixPolicyError ε) :=
  match r with
  | LineResult.wrote out s2 =>
    (out ++ (hc_run H ctx s2 [] rest).1, (hc_run H ctx s2 [] rest).2)
  | LineResult.ingested s2 => hc_run H ctx s2 [] rest
  | LineResult.aborted e => ([], some e)

/-- src/lib.rs lines 332-358 (`mod tests`): the `DummyRequestHandler`
state — `found_request` and `client_address`. -/
structure DummyState where
  found_request : Bool
  client_address : List Nat
  deriving DecidableEq

/-- src/lib.rs lines 336-358: the test `DummyRequestHandler`: records
whether a `request` attribute was seen and the last `client_address`
value; rejects (empty payload) when no `request` attribute arrived, else
defers with the client address. -/
def DummyRequestHandler : PolicyRequestHandler Unit Unit DummyState where
  new _ := { found_request := false, client_address := [] }
  «attribute» s name value :=
    if name = strBytes "request" then ({ s with found_request := true }, none)
    else if name = strBytes "client_address" then
      ({ s with client_address := value }, none)
    else (s, none)
  response s :=
    if s.found_request = false then Except.ok (PolicyResponse.Reject [])
    else Except.ok (PolicyResponse.Defer s.client_address)

/-- A handler whose `attribute` and `response` both signal a fatal error,
exercising the abort paths of the engine. -/
def FailingHandler : PolicyRequestHandler Unit Unit Unit where
  new _ := ()
  «attribute» _ _ _ := ((), some ())
  response _ := Except.error ()

example :
    handle_connection DummyRequestHandler () (strBytes "\n") =
      (strBytes "action=REJECT\n\n", none) := by decide

example :
    handle_connection DummyRequestHandler ()
        (strBytes "request=smtpd_access_policy\nprotocol_state=RCPT\nprotocol_name=ESMTP\nclient_address=131.234.189.14\n\n") =
      (strBytes "action=DEFER 131.234.189.14\n\n", none) := by decide

example :
    handle_connection DummyRequestHandler () (strBytes "asdf\n\n") =
      ([], some (PostfixPolicyError.ProtocolError (strBytes "asdf\n"))) := by
  decide

example :
    handle_connection DummyRequestHandler () (strBytes "=a\n\n") =
      ([], some (PostfixPolicyError.ProtocolError (strBytes "=a\n"))) := by
  decide

/-! ## Request encodings and handler folds used by the theorems -/

/-- Wire encoding of one attribute line `name=value\n`. -/
def encodeAttr (a : List Nat × List Nat) : List Nat :=
  a.1 ++ 61 :: a.2 ++ [10]

/-- Wire encoding of a list of attribute lines. -/
def attrLines : List (List Nat × List Nat) → List Nat
  | [] => []
  | a :: rest => encodeAttr a ++ attrLines rest

/-- Wire encoding of a full request: attribute lines then the blank line. -/
def encodeRequest (l : List (List Nat × List Nat)) : List Nat :=
  attrLines l ++ [10]

/-- The bytes the engine writes for decision `d`: `action=`, the Response
Model encoding, then two line feeds. -/
def respBytes (d : PolicyResponse) : List Nat :=
  strBytes "action=" ++ serialize_response d ++ [10, 10]

/-- A syntactically valid attribute: non-empty name, no equals sign or
line feed in the name, no line feed in the value. -/
def ValidAttr (a : List Nat × List Nat) : Prop :=
  a.1 ≠ [] ∧ 61 ∉ a.1 ∧ 10 ∉ a.1 ∧ 10 ∉ a.2

instance (a : List Nat × List Nat) : Decidable (ValidAttr a) :=
  inferInstanceAs (Decidable (a.1 ≠ [] ∧ 61 ∉ a.1 ∧ 10 ∉ a.1 ∧ 10 ∉ a.2))

/-- Feeding a list of attributes to the handler, threading the state;
`none` when the handler signals a fatal error along the way. -/
def feed (H : PolicyRequestHandler γ ε σ) :
    σ → List (List Nat × List Nat) → Option σ
  | s, [] => some s
  | s, a :: rest =>
    match H.attribute s a.1 a.2 with
    | (s2, none) => feed H s2 rest
    | (_, some _) => none

/-! ## Characterizations of the line reader and separator search -/

theorem findEq_of_not_mem (l : List Nat) (h : 61 ∉ l) : findEq l = none := by
  induction l with
  | nil => rfl
  | cons c rest ih =>
    simp only [List.mem_cons, not_or] at h
    have hcn : ¬c = 61 := fun hc => h.1 hc.symm
    simp [findEq, hcn, ih h.2]

theorem findEq_append (n t : List Nat) (h : 61 ∉ n) :
    findEq (n ++ 61 :: t) = some n.length := by
  induction n with
  | nil => simp [findEq]
  | cons c rest ih =>
    simp only [List.mem_cons, not_or] at h
    have hcn : ¬c = 61 := fun hc => h.1 hc.symm
    simp [findEq, hcn, ih h.2]

theorem read_until_nl_append (xs r : List Nat) (h : 10 ∉ xs) :
    read_until_nl (xs ++ 10 :: r) = (xs ++ [10], r) := by
  induction xs with
  | nil => simp [read_until_nl]
  | cons b rest ih =>
    simp only [List.mem_cons, not_or] at h
    have hbn : ¬b = 10 := fun hb => h.1 hb.symm
    simp [read_until_nl, hbn, ih h.2]

theorem read_until_nl_no_nl (xs : List Nat) (h : 10 ∉ xs) :
    read_until_nl xs = (xs, []) := by
  induction xs with
  | nil => rfl
  | cons b rest ih =>
    simp only [List.mem_cons, not_or] at h
    have hbn : ¬b = 10 := fun hb => h.1 hb.symm
    simp [read_until_nl, hbn, ih h.2]

/-- One iteration of the `handle_connection` loop: when the stream is not
already exhausted with no pending bytes, `hc_run` processes exactly the
line returned by `read_until_nl` (prefixed by the pending bytes `cur`)
and continues on the unread remainder — the Rust loop's
`read_until`-then-dispatch shape. -/
theorem hc_run_eq (H : PolicyRequestHandler γ ε σ) (ctx : γ) (s : σ) :
    ∀ (input cur : List Nat), 10 ∉ cur → (cur ≠ [] ∨ input ≠ []) →
      hc_run H ctx s cur input =
        line_dispatch H ctx
          (process_line H ctx s (cur ++ (read_until_nl input).1))
          ((read_until_nl input).2) := by
  intro input
  induction input with
  | nil =>
    intro cur _ hne
    rcases hne with hc | hi
    · simp only [hc_run, if_neg hc, read_until_nl, List.append_nil,
        line_dispatch]
      cases process_line H ctx s cur with
      | wrote out s2 => simp [hc_run]
      | ingested s2 => simp [hc_run]
      | aborted e => rfl
    · exact absurd rfl hi
  | cons b rest ih =>
    intro cur h10 _
    by_cases hb : b = 10
    · subst hb
      cases hp : process_line H ctx s (cur ++ [10]) with
      | wrote out s2 => simp [hc_run, read_until_nl, line_dispatch, hp]
      | ingested s2 => simp [hc_run, read_until_nl, line_dispatch, hp]
      | aborted e => simp [hc_run, read_until_nl, line_dispatch, hp]
    · have h10' : 10 ∉ cur ++ [b] := by
        simp only [List.mem_append, List.mem_singleton, not_or]
        exact ⟨h10, fun hbb => hb hbb.symm⟩
      simp only [hc_run, if_neg hb]
      rw [ih (cur ++ [b]) h10' (Or.inl (by simp))]
      simp [read_until_nl, hb, List.append_assoc]

/-! ## Computation of the loop body on the line shapes of the protocol -/

theorem process_line_blank_ok (H : PolicyRequestHandler γ ε σ) (ctx : γ)
    (s : σ) (d : PolicyResponse) (h : H.response s = Except.ok d) :
    process_line H ctx s [10] = LineResult.wrote (respBytes d) (H.new ctx) := by
  simp [process_line, h, respBytes]

theorem process_line_blank_err (H : PolicyRequestHandler γ ε σ) (ctx : γ)
    (s : σ) (e : ε) (h : H.response s = Except.error e) :
    process_line H ctx s [10] =
      LineResult.aborted (PostfixPolicyError.HandlerError e) := by
  simp [process_line, h]

theorem process_line_no_eq (H : PolicyRequestHandler γ ε σ) (ctx : γ)
    (s : σ) (buf : List Nat) (hne : buf ≠ [10]) (h61 : 61 ∉ buf) :
    process_line H ctx s buf =
      LineResult.aborted (PostfixPolicyError.ProtocolError buf) := by
  simp [process_line, hne, findEq_of_not_mem buf h61]

theorem process_line_empty_name (H : PolicyRequestHandler γ ε σ) (ctx : γ)
    (s : σ) (t : List Nat) :
    process_line H ctx s (61 :: t) =
      LineResult.aborted (PostfixPolicyError.ProtocolError (61 :: t)) := by
  have hne : (61 : Nat) :: t ≠ [10] := by
    intro h
    cases h
  simp [process_line, hne, findEq]

theorem process_line_attr (H : PolicyRequestHandler γ ε σ) (ctx : γ)
    (s : σ) (n w : List Nat) (hn : n ≠ []) (h61 : 61 ∉ n) (hw : w ≠ []) :
    process_line H ctx s (n ++ 61 :: w) =
      (match H.attribute s n w.dropLast with
       | (_, some e) => LineResult.aborted (PostfixPolicyError.HandlerError e)
       | (s2, none) => LineResult.ingested s2) := by
  have hlen : 0 < n.length := List.length_pos.mpr hn
  have hwlen : 0 < w.length := List.length_pos.mpr hw
  have hne : n ++ 61 :: w ≠ [10] := by
    intro h
    have := congrArg List.length h
    simp [List.length_append] at this
    omega
  have htake : (n ++ 61 :: w).take n.length = n := List.take_left n (61 :: w)
  have hdrop : (n ++ 61 :: w).drop n.length = 61 :: w := List.drop_left n (61 :: w)
  have hguard : ¬(n = [] ∨ (61 :: w).length < 2) := by
    simp only [not_or, not_lt, List.length_cons]
    exact ⟨hn, by omega⟩
  simp only [process_line, if_neg hne, findEq_append n w h61, htake, hdrop,
    if_neg hguard, List.drop_succ_cons, List.drop_zero]

theorem process_line_short (H : PolicyRequestHandler γ ε σ) (ctx : γ)
    (s : σ) (n : List Nat) (hn : n ≠ []) (h61 : 61 ∉ n) :
    process_line H ctx s (n ++ [61]) =
      LineResult.aborted (PostfixPolicyError.ProtocolError (n ++ [61])) := by
  have hlen : 0 < n.length := List.length_pos.mpr hn
  have hne : n ++ [61] ≠ [10] := by
    intro h
    have hl := congrArg List.length h
    simp only [List.length_append, List.length_cons, List.length_nil] at hl
    omega
  have htake : (n ++ [61]).take n.length = n := List.take_left n [61]
  have hdrop : (n ++ [61]).drop n.length = [61] := List.drop_left n [61]
  have hguard : n = [] ∨ ([61] : List Nat).length < 2 := Or.inr (by simp)
  have hfind : findEq (n ++ [61]) = some n.length := findEq_append n [] h61
  simp only [process_line, if_neg hne, hfind, htake, hdrop, if_pos hguard]

/-! ## Engine-level step lemmas -/

/-- Reading a well-formed attribute line `n=v\n`: the handler is called
with exactly `(n, v)`; on `None` the loop continues on the remainder with
the updated state, on `Some e` the connection aborts with `HandlerError e`
and nothing is written. -/
theorem hc_attr_line (H : PolicyRequestHandler γ ε σ) (ctx : γ) (s : σ)
    (n v rest : List Nat) (hn : n ≠ []) (h61 : 61 ∉ n) (h10n : 10 ∉ n)
    (h10v : 10 ∉ v) :
    hc_run H ctx s [] (n ++ 61 :: v ++ 10 :: rest) =
      (match H.attribute s n v with
       | (_, some e) => ([], some (PostfixPolicyError.HandlerError e))
       | (s2, none) => hc_run H ctx s2 [] rest) := by
  have hinput : n ++ 61 :: v ++ 10 :: rest ≠ [] := by
    cases n with
    | nil => exact absurd rfl hn
    | cons c m => simp
  have h10' : 10 ∉ n ++ 61 :: v := by
    simp only [List.mem_append, List.mem_cons, not_or]
    exact ⟨h10n, by omega, h10v⟩
  have hread : read_until_nl (n ++ 61 :: v ++ 10 :: rest)
      = (n ++ 61 :: (v ++ [10]), rest) := by
    have := read_until_nl_append (n ++ 61 :: v) rest h10'
    simpa [List.append_assoc] using this
  rw [hc_run_eq H ctx s _ [] (by simp) (Or.inr hinput), hread]
  simp only [List.nil_append]
  rw [process_line_attr H ctx s n (v ++ [10]) hn h61 (by simp)]
  rw [List.dropLast_concat]
  cases hA : H.attribute s n v with
  | mk s2 oe =>
    cases oe with
    | none => rfl
    | some e => rfl

/-- Reading the blank line when the handler finalizes successfully: the
response bytes are written in full before the loop continues, with a
fresh handler, on the unread remainder. -/
theorem hc_blank_ok (H : PolicyRequestHandler γ ε σ) (ctx : γ) (s : σ)
    (d : PolicyResponse) (rest : List Nat) (h : H.response s = Except.ok d) :
    hc_run H ctx s [] (10 :: rest) =
      (respBytes d ++ (hc_run H ctx (H.new ctx) [] rest).1,
       (hc_run H ctx (H.new ctx) [] rest).2) := by
  rw [hc_run_eq H ctx s _ [] (by simp) (Or.inr (by simp))]
  have hr : read_until_nl (10 :: rest) = ([10], rest) := by
    simp [read_until_nl]
  rw [hr]
  simp only [List.nil_append]
  rw [process_line_blank_ok H ctx s d h]
  rfl

/-- Reading the blank line when the handler's finalization fails: the
connection aborts with `HandlerError` and nothing is written. -/
theorem hc_blank_err (H : PolicyRequestHandler γ ε σ) (ctx : γ) (s : σ)
    (e : ε) (rest : List Nat) (h : H.response s = Except.error e) :
    hc_run H ctx s [] (10 :: rest) =
      ([], some (PostfixPolicyError.HandlerError e)) := by
  rw [hc_run_eq H ctx s _ [] (by simp) (Or.inr (by simp))]
  have hr : read_until_nl (10 :: rest) = ([10], rest) := by
    simp [read_until_nl]
  rw [hr]
  simp only [List.nil_append]
  rw [process_line_blank_err H ctx s e h]
  rfl

/-- Feeding the attribute lines of a request: when the handler accepts
every attribute, the loop ends up at the threaded state with nothing
written, poised on the remainder of the stream. -/
theorem hc_feed (H : PolicyRequestHandler γ ε σ) (ctx : γ) :
    ∀ (a : List (List Nat × List Nat)) (s s' : σ) (t : List Nat),
      (∀ x ∈ a, ValidAttr x) → feed H s a = some s' →
      hc_run H ctx s [] (attrLines a ++ t) = hc_run H ctx s' [] t := by
  intro a
  induction a with
  | nil =>
    intro s s' t _ hf
    simp only [feed, Option.some.injEq] at hf
    subst hf
    simp [attrLines]
  | cons p rest ih =>
    intro s s' t hv hf
    obtain ⟨hn, h61, h10n, h10v⟩ := hv p (List.mem_cons_self p rest)
    have harr : attrLines (p :: rest) ++ t
        = p.1 ++ 61 :: p.2 ++ 10 :: (attrLines rest ++ t) := by
      simp [attrLines, encodeAttr, List.append_assoc]
    rw [harr, hc_attr_line H ctx s p.1 p.2 _ hn h61 h10n h10v]
    simp only [feed] at hf
    cases hA : H.attribute s p.1 p.2 with
    | mk s2 oe =>
      rw [hA] at hf
      cases oe with
      | some e => exact absurd hf (by simp)
      | none =>
        exact ih s2 s' t (fun x hx => hv x (List.mem_cons_of_mem p hx)) hf

/-- Processing one full well-formed request at the head of the stream:
exactly the response bytes for the finalized decision are written, then
the loop continues on the remainder with a freshly constructed handler. -/
theorem hc_request (H : PolicyRequestHandler γ ε σ) (ctx : γ)
    (a : List (List Nat × List Nat)) (s s' : σ) (d : PolicyResponse)
    (t : List Nat) (hv : ∀ x ∈ a, ValidAttr x) (hf : feed H s a = some s')
    (hd : H.response s' = Except.ok d) :
    hc_run H ctx s [] (encodeRequest a ++ t) =
      (respBytes d ++ (hc_run H ctx (H.new ctx) [] t).1,
       (hc_run H ctx (H.new ctx) [] t).2) := by
  have harr : encodeRequest a ++ t = attrLines a ++ (10 :: t) := by
    simp [encodeRequest, List.append_assoc]
  rw [harr, hc_feed H ctx a s s' _ hv hf, hc_blank_ok H ctx s' d t hd]

/-! ## The claims -/

/-- C1: whenever the engine reads a line consisting of exactly the
terminator and the handler's finalization yields a decision,
the engine writes exactly `action=`, the Response Model encoding of the
decision, and two line terminators (the subsequent flush being a no-op on
the pure byte sink) before reading any further line; hence a syntactically
valid request produces exactly one `action=...\n\n` response, after which
the engine continues on the remaining stream with a fresh handler. -/
theorem valid_request_one_response (H : PolicyRequestHandler γ ε σ)
    (ctx : γ) (s s' : σ) (d : PolicyResponse)
    (a : List (List Nat × List Nat)) (t rest : List Nat)
    (hv : ∀ x ∈ a, ValidAttr x) :
    (H.response s = Except.ok d →
      hc_run H ctx s [] (10 :: rest) =
        (respBytes d ++ (hc_run H ctx (H.new ctx) [] rest).1,
         (hc_run H ctx (H.new ctx) [] rest).2)) ∧
    (feed H (H.new ctx) a = some s' → H.response s' = Except.ok d →
      handle_connection H ctx (encodeRequest a ++ t) =
        (respBytes d ++ (hc_run H ctx (H.new ctx) [] t).1,
         (hc_run H ctx (H.new ctx) [] t).2)) := by
  constructor
  · intro hd
    exact hc_blank_ok H ctx s d rest hd
  · intro hf hd
    unfold handle_connection
    exact hc_request H ctx a (H.new ctx) s' d t hv hf hd

theorem valid_request_one_response_witness :
    hc_run DummyRequestHandler ()
        { found_request := true, client_address := [] } [] (10 :: []) =
      (strBytes "action=DEFER\n\n", none) ∧
    handle_connection DummyRequestHandler ()
        (encodeRequest [(strBytes "request", strBytes "x")] ++ []) =
      (strBytes "action=DEFER\n\n", none) := by
  have h := valid_request_one_response DummyRequestHandler ()
    { found_request := true, client_address := [] }
    { found_request := true, client_address := [] }
    (PolicyResponse.Defer []) [(strBytes "request", strBytes "x")] [] []
    (by decide)
  refine ⟨?_, ?_⟩
  · rw [h.1 rfl]
    decide
  · rw [h.2 rfl rfl]
    decide

/-- C2: `serialize_response` is total and deterministic on all 12 variants:
a non-empty payload yields the upper-case tag, a single space, then the
payload bytes; an empty payload yields exactly the bare tag, with no
trailing space and no trailing newline. -/
theorem serialize_response_all_variants (p : List Nat) :
    serialize_response PolicyResponse.Ok = strBytes "OK" ∧
    serialize_response PolicyResponse.Dunno = strBytes "DUNNO" ∧
    serialize_response (PolicyResponse.Reject p)
      = (if p = [] then strBytes "REJECT" else strBytes "REJECT" ++ 32 :: p) ∧
    serialize_response (PolicyResponse.Defer p)
      = (if p = [] then strBytes "DEFER" else strBytes "DEFER" ++ 32 :: p) ∧
    serialize_response (PolicyResponse.DeferIfReject p)
      = (if p = [] then strBytes "DEFER_IF_REJECT"
         else strBytes "DEFER_IF_REJECT" ++ 32 :: p) ∧
    serialize_response (PolicyResponse.DeferIfPermit p)
      = (if p = [] then strBytes "DEFER_IF_PERMIT"
         else strBytes "DEFER_IF_PERMIT" ++ 32 :: p) ∧
    serialize_response (PolicyResponse.Bcc p)
      = (if p = [] then strBytes "BCC" else strBytes "BCC" ++ 32 :: p) ∧
    serialize_response (PolicyResponse.Discard p)
      = (if p = [] then strBytes "DISCARD" else strBytes "DISCARD" ++ 32 :: p) ∧
    serialize_response (PolicyResponse.Hold p)
      = (if p = [] then strBytes "HOLD" else strBytes "HOLD" ++ 32 :: p) ∧
    serialize_response (PolicyResponse.Redirect p)
      = (if p = [] then strBytes "REDIRECT" else strBytes "REDIRECT" ++ 32 :: p) ∧
    serialize_response (PolicyResponse.Info p)
      = (if p = [] then strBytes "INFO" else strBytes "INFO" ++ 32 :: p) ∧
    serialize_response (PolicyResponse.Warn p)
      = (if p = [] then strBytes "WARN" else strBytes "WARN" ++ 32 :: p) := by
  refine ⟨rfl, rfl, ?_, ?_, ?_, ?_, ?_, ?_, ?_, ?_, ?_, ?_⟩ <;>
    by_cases h : p = [] <;> simp [serialize_response, h]

/-- C3: a non-blank line with no equals sign, or one whose name portion
before the first equals sign is empty, aborts the connection with
`ProtocolError` carrying exactly the raw offending line including its
terminator; no response bytes are written for that request and the rest of
the stream is never examined. -/
theorem malformed_line_aborts (H : PolicyRequestHandler γ ε σ) (ctx : γ)
    (s : σ) (l rest : List Nat) (h10 : 10 ∉ l)
    (hbad : (l ≠ [] ∧ 61 ∉ l) ∨ l.head? = some 61) :
    hc_run H ctx s [] (l ++ 10 :: rest) =
      ([], some (PostfixPolicyError.ProtocolError (l ++ [10]))) := by
  have hlne : l ≠ [] := by
    rcases hbad with ⟨h, _⟩ | h
    · exact h
    · intro hl
      subst hl
      simp at h
  have hinput : l ++ 10 :: rest ≠ [] := by
    cases l <;> simp
  rw [hc_run_eq H ctx s _ [] (by simp) (Or.inr hinput),
    read_until_nl_append l rest h10]
  simp only [List.nil_append]
  rcases hbad with ⟨_, h61⟩ | hhead
  · have hb : l ++ [10] ≠ [10] := by
      intro h
      have hl := congrArg List.length h
      simp only [List.length_append, List.length_cons, List.length_nil] at hl
      have := List.length_pos.mpr hlne
      omega
    have h61' : 61 ∉ l ++ [10] := by simp [h61]
    rw [process_line_no_eq H ctx s _ hb h61']
    rfl
  · cases l with
    | nil => simp at hhead
    | cons c tl =>
      simp only [List.head?_cons, Option.some.injEq] at hhead
      subst hhead
      rw [List.cons_append, process_line_empty_name H ctx s (tl ++ [10])]
      rfl

theorem malformed_line_aborts_witness :
    hc_run DummyRequestHandler () (DummyRequestHandler.new ()) []
        (strBytes "asdf" ++ 10 :: []) =
      ([], some (PostfixPolicyError.ProtocolError (strBytes "asdf" ++ [10]))) :=
  malformed_line_aborts DummyRequestHandler () (DummyRequestHandler.new ())
    (strBytes "asdf") [] (by decide) (Or.inl ⟨by decide, by decide⟩)

/-- C4 counterexample: the line `a=\n` — a name, an equals sign, and no
character before the terminator — does NOT abort with `ProtocolError`; the
engine accepts it (the remainder from the equals sign is the two bytes
`=\n`, so the `< 2` guard does not fire), passes the empty value to the
handler, and answers the request normally. -/
theorem name_eq_nl_accepted :
    handle_connection DummyRequestHandler () (strBytes "a=\n\n") =
      (strBytes "action=REJECT\n\n", none) := by decide

/-- C4 (amended): the truncation guard `right.len() < 2` measures the
remainder from the first equals sign to the end of the line, including the
equals sign itself.  It therefore aborts with `ProtocolError` carrying the
raw offending line exactly when the equals sign is the final byte of the
line — possible only for an unterminated final line such as `name=` at end
of stream — while a terminated line `name=\n` is accepted as an attribute
whose value is the empty byte string. -/
theorem short_remainder_guard (H : PolicyRequestHandler γ ε σ) (ctx : γ)
    (s : σ) (n rest : List Nat) (hn : n ≠ []) (h61 : 61 ∉ n) (h10 : 10 ∉ n) :
    hc_run H ctx s [] (n ++ [61]) =
      ([], some (PostfixPolicyError.ProtocolError (n ++ [61]))) ∧
    hc_run H ctx s [] (n ++ 61 :: 10 :: rest) =
      (match H.attribute s n [] with
       | (_, some e) => ([], some (PostfixPolicyError.HandlerError e))
       | (s2, none) => hc_run H ctx s2 [] rest) := by
  constructor
  · have hinput : n ++ [61] ≠ [] := by
      cases n <;> simp
    have h10' : 10 ∉ n ++ [61] := by simp [h10]
    rw [hc_run_eq H ctx s _ [] (by simp) (Or.inr hinput),
      read_until_nl_no_nl _ h10']
    simp only [List.nil_append]
    rw [process_line_short H ctx s n hn h61]
    rfl
  · have h := hc_attr_line H ctx s n [] rest hn h61 h10 (by simp)
    simpa [List.append_assoc] using h

theorem short_remainder_guard_witness :
    hc_run DummyRequestHandler () (DummyRequestHandler.new ()) []
        (strBytes "a" ++ [61]) =
      ([], some (PostfixPolicyError.ProtocolError (strBytes "a" ++ [61]))) ∧
    hc_run DummyRequestHandler () (DummyRequestHandler.new ()) []
        (strBytes "a" ++ 61 :: 10 :: []) =
      (match PolicyRequestHandler.«attribute» DummyRequestHandler
          (DummyRequestHandler.new ()) (strBytes "a") [] with
       | (_, some e) => ([], some (PostfixPolicyError.HandlerError e))
       | (s2, none) => hc_run DummyRequestHandler () s2 [] []) :=
  short_remainder_guard DummyRequestHandler () (DummyRequestHandler.new ())
    (strBytes "a") [] (by decide) (by decide) (by decide)

/-- C5: a fatal handler error — returned by `attribute` while ingesting an
attribute, or by `response` at finalization — makes the engine return
`HandlerError` carrying that exact handler-defined error value, with no
response bytes written (not even partial ones) and the remainder of the
stream never examined. -/
theorem handler_error_aborts (H : PolicyRequestHandler γ ε σ) (ctx : γ)
    (s s2 : σ) (e : ε) (n v rest : List Nat) (hva : ValidAttr (n, v)) :
    (H.attribute s n v = (s2, some e) →
      hc_run H ctx s [] (n ++ 61 :: v ++ 10 :: rest) =
        ([], some (PostfixPolicyError.HandlerError e))) ∧
    (H.response s = Except.error e →
      hc_run H ctx s [] (10 :: rest) =
        ([], some (PostfixPolicyError.HandlerError e))) := by
  obtain ⟨hn, h61, h10n, h10v⟩ := hva
  constructor
  · intro hA
    rw [hc_attr_line H ctx s n v rest hn h61 h10n h10v, hA]
  · intro hr
    exact hc_blank_err H ctx s e rest hr

theorem handler_error_aborts_witness :
    hc_run FailingHandler () () []
        (strBytes "a" ++ 61 :: strBytes "b" ++ 10 :: []) =
      ([], some (PostfixPolicyError.HandlerError ())) ∧
    hc_run FailingHandler () () [] (10 :: []) =
      ([], some (PostfixPolicyError.HandlerError ())) :=
  ⟨(handler_error_aborts FailingHandler () () () () (strBytes "a")
      (strBytes "b") [] (by decide)).1 rfl,
   (handler_error_aborts FailingHandler () () () () (strBytes "a")
      (strBytes "b") [] (by decide)).2 rfl⟩

/-- C6: the split is made at the first equals sign only: the handler
receives as name all bytes before the first equals sign and as value
everything between that sign and the trailing terminator, with exactly the
sign and the single terminator stripped — equals signs embedded in the
value stay there, and no other trimming is performed. -/
theorem split_at_first_eq (H : PolicyRequestHandler γ ε σ) (ctx : γ)
    (s : σ) (n v rest : List Nat) (hn : n ≠ []) (h61 : 61 ∉ n)
    (h10n : 10 ∉ n) (h10v : 10 ∉ v) :
    hc_run H ctx s [] (n ++ 61 :: v ++ 10 :: rest) =
      (match H.attribute s n v with
       | (_, some e) => ([], some (PostfixPolicyError.HandlerError e))
       | (s2, none) => hc_run H ctx s2 [] rest) :=
  hc_attr_line H ctx s n v rest hn h61 h10n h10v

theorem split_at_first_eq_witness :
    hc_run DummyRequestHandler () (DummyRequestHandler.new ()) []
        (strBytes "a" ++ 61 :: strBytes "b=c" ++ 10 :: []) = ([], none) := by
  rw [split_at_first_eq DummyRequestHandler () (DummyRequestHandler.new ())
    (strBytes "a") (strBytes "b=c") [] (by decide) (by decide) (by decide)
    (by decide)]
  decide

/-- C7: a read returning zero bytes at a request boundary — end of stream
with no pending line — terminates the whole connection as success: the
engine returns `Ok(())` (no error), having written nothing further. -/
theorem clean_eof_success (H : PolicyRequestHandler γ ε σ) (ctx : γ)
    (s : σ) :
    handle_connection H ctx [] = ([], none) ∧
    hc_run H ctx s [] [] = ([], none) :=
  ⟨rfl, rfl⟩

/-- C8: sequential requests on one connection are each served by a handler
constructed fresh from the shared context, which receives exactly that
request's attributes: the output for two back-to-back requests is the
concatenation of the two responses, each determined by feeding a freshly
constructed handler only its own request's attributes — so the second
response is independent of the first request's attributes. -/
theorem fresh_handler_per_request (H : PolicyRequestHandler γ ε σ)
    (ctx : γ) (a1 a2 : List (List Nat × List Nat)) (s1 s2 : σ)
    (d1 d2 : PolicyResponse)
    (hv1 : ∀ x ∈ a1, ValidAttr x) (hv2 : ∀ x ∈ a2, ValidAttr x)
    (hf1 : feed H (H.new ctx) a1 = some s1)
    (hd1 : H.response s1 = Except.ok d1)
    (hf2 : feed H (H.new ctx) a2 = some s2)
    (hd2 : H.response s2 = Except.ok d2) :
    handle_connection H ctx (encodeRequest a1 ++ encodeRequest a2) =
      (respBytes d1 ++ respBytes d2, none) := by
  unfold handle_connection
  rw [hc_request H ctx a1 (H.new ctx) s1 d1 _ hv1 hf1 hd1]
  have h2 : hc_run H ctx (H.new ctx) [] (encodeRequest a2) =
      (respBytes d2, none) := by
    have h := hc_request H ctx a2 (H.new ctx) s2 d2 [] hv2 hf2 hd2
    simpa [hc_run] using h
  rw [h2]

theorem fresh_handler_per_request_witness :
    handle_connection DummyRequestHandler ()
        (encodeRequest [(strBytes "a", strBytes "b")] ++
          encodeRequest [(strBytes "request", strBytes "x")]) =
      (respBytes (PolicyResponse.Reject []) ++
        respBytes (PolicyResponse.Defer []), none) :=
  fresh_handler_per_request DummyRequestHandler ()
    [(strBytes "a", strBytes "b")] [(strBytes "request", strBytes "x")]
    { found_request := false, client_address := [] }
    { found_request := true, client_address := [] }
    (PolicyResponse.Reject []) (PolicyResponse.Defer [])
    (by decide) (by decide) rfl rfl rfl rfl

/-- C9: when the input's final line lacks a trailing terminator and has
the form `name=rest` with a non-empty name and at least one byte after the
equals sign, the engine still treats it as an attribute line and strips
its final byte as if it were a terminator: the handler receives the value
minus its true last byte, after which the exhausted stream ends the
connection cleanly. -/
theorem unterminated_line_strips_last (H : PolicyRequestHandler γ ε σ)
    (ctx : γ) (s : σ) (n v : List Nat) (hn : n ≠ []) (h61 : 61 ∉ n)
    (h10n : 10 ∉ n) (h10v : 10 ∉ v) (hvne : v ≠ []) :
    hc_run H ctx s [] (n ++ 61 :: v) =
      (match H.attribute s n v.dropLast with
       | (_, some e) => ([], some (PostfixPolicyError.HandlerError e))
       | (_, none) => ([], none)) := by
  have hinput : n ++ 61 :: v ≠ [] := by
    cases n <;> simp
  have h10' : 10 ∉ n ++ 61 :: v := by
    simp only [List.mem_append, List.mem_cons, not_or]
    exact ⟨h10n, by omega, h10v⟩
  rw [hc_run_eq H ctx s _ [] (by simp) (Or.inr hinput),
    read_until_nl_no_nl _ h10']
  simp only [List.nil_append]
  rw [process_line_attr H ctx s n v hn h61 hvne]
  cases hA : H.attribute s n v.dropLast with
  | mk s2 oe =>
    cases oe with
    | none => rfl
    | some e => rfl

theorem unterminated_line_strips_last_witness :
    hc_run DummyRequestHandler () (DummyRequestHandler.new ()) []
        (strBytes "a" ++ 61 :: strBytes "bc") = ([], none) := by
  rw [unterminated_line_strips_last DummyRequestHandler ()
    (DummyRequestHandler.new ()) (strBytes "a") (strBytes "bc") (by decide)
    (by decide) (by decide) (by decide) (by decide)]
  decide

/-- C10: when the stream ends after one or more attribute lines of a
request but before its blank-line terminator, the incomplete request is
silently dropped as success: the engine returns `Ok(())`, the handler is
never finalized, and no response bytes are written. -/
theorem eof_mid_request_success (H : PolicyRequestHandler γ ε σ) (ctx : γ)
    (a : List (List Nat × List Nat)) (s' : σ) (_hne : a ≠ [])
    (hv : ∀ x ∈ a, ValidAttr x) (hf : feed H (H.new ctx) a = some s') :
    handle_connection H ctx (attrLines a) = ([], none) := by
  unfold handle_connection
  have harr : attrLines a = attrLines a ++ [] := by simp
  rw [harr, hc_feed H ctx a (H.new ctx) s' [] hv hf]
  rfl

theorem eof_mid_request_success_witness :
    handle_connection DummyRequestHandler ()
        (attrLines [(strBytes "a", strBytes "b")]) = ([], none) :=
  eof_mid_request_success DummyRequestHandler ()
    [(strBytes "a", strBytes "b")]
    { found_request := false, client_address := [] }
    (by decide) (by decide) rfl
